import Mathlib

/-!
Verification of the Gemini protocol adapter
(`src/ha-config-ai-agent/src/agents/gemini_client.py`).

The adapter converts an OpenAI-style conversation into Gemini's native
request shape and converts Gemini's SSE response stream back into
normalized events, threading `thought_signature` tokens.

Embedding conventions:
* Python dicts with optional keys become structures with `Option` fields;
  `d.get(k, v)` becomes `field.getD v`.
* Python truthiness of an optional string (`if sig:`) is `truthyS`:
  both `None` and `""` are falsy.
* The Python `json` library is external to the repository, so JSON
  decoding is a parameter (`parse : String → Option α`) and encoding a
  parameter (`dumps : Json → String`); every theorem quantifies over them.
* Python `str` operations are embedded structurally over the code-point
  list `String.data` (Python strings are code-point sequences), so that
  concrete runs evaluate inside the kernel.
* The streamed HTTP exchange is modelled by `Transport`: either a
  response (status, body text, decoded SSE lines) or a raised exception;
  the asynchronous generator becomes a pure function to the list of
  events it yields, in order.
-/

namespace Gemini

/-- Minimal JSON value universe for payloads the adapter passes through. -/
inductive Json where
  | null : Json
  | bool (b : Bool) : Json
  | num (n : Int) : Json
  | str (s : String) : Json
  | arr (l : List Json) : Json
  | obj (l : List (String × Json)) : Json

/-- Python truthiness of an optional string: `None` and `""` are falsy. -/
def truthyS : Option String → Bool
  | none => false
  | some s => s != ""

/-- Python `a or b` on optional strings: `a` when truthy, else `b`. -/
def pyOrS (a b : Option String) : Option String :=
  if truthyS a then a else b

/-- Python `s.strip()`: remove whitespace at both ends. -/
def pyStrip (s : String) : String :=
  ⟨((s.data.dropWhile Char.isWhitespace).reverse.dropWhile Char.isWhitespace).reverse⟩

/-- Python `s.startswith(p)`. -/
def pyStartsWith (s p : String) : Bool :=
  p.data.isPrefixOf s.data

/-- Python `s[n:]` (drop the first `n` code points). -/
def pyDropStr (s : String) (n : Nat) : String :=
  ⟨s.data.drop n⟩

/-- Python `s[:n]` (keep the first `n` code points). -/
def pyTakeStr (s : String) (n : Nat) : String :=
  ⟨s.data.take n⟩

/-- Python `c in s` for a single-character needle. -/
def pyContainsChar (s : String) (c : Char) : Bool :=
  s.data.contains c

/-- Python `s.split(c)[0]`: the segment before the first occurrence of `c`
(the whole string when `c` does not occur). -/
def pySplitFirst (s : String) (c : Char) : String :=
  ⟨s.data.takeWhile (fun d => d != c)⟩

/-- The mutable `pending_thought_signatures` dict (function name ↦
signature), as an association list where the head is the most recent
insertion, looked up with `List.lookup`. -/
abbrev SigMap := List (String × String)

/-! ### OpenAI-style inbound message model -/

/-- One entry of a list-valued `content` field: either a dict (with
optional `"type"` and `"text"` keys) or a non-dict item, which both
translation paths skip. -/
inductive ContentItem where
  | dict (ty : Option String) (text : Option String) : ContentItem
  | other : ContentItem

/-- The `content` field of a message: a plain string or a list of items.
An absent key and an explicit `None` are both modelled by `Option.none`
at the use site. -/
inductive MsgContent where
  | str (s : String) : MsgContent
  | items (l : List ContentItem) : MsgContent

/-- The `"function"` sub-dict of one OpenAI tool call. -/
structure FuncField where
  name : Option String
  arguments : Option MsgContent

/-- One entry of an assistant message's `tool_calls` list. -/
structure ToolCall where
  function : Option FuncField
  thought_signature : Option String

/-- One OpenAI-style message, with every key optional as in the dict the
source navigates with `.get`. -/
structure Msg where
  role : Option String
  content : Option MsgContent
  tool_calls : Option (List ToolCall)
  function_name : Option String
  tool_call_id : Option String
  thought_signature : Option String

/-! ### Gemini-side request model -/

/-- Value of `functionResponse.response`: parsed JSON, or the raw list passed
through unchanged when the tool content was itself a list. -/
inductive RespData where
  | json (j : Json) : RespData
  | passthrough (l : List ContentItem) : RespData

/-- One Gemini Part as built by `_build_contents`. -/
inductive GPart where
  | text (s : String) : GPart
  | functionCall (name : String) (args : Json) (thought_signature : Option String) : GPart
  | functionResponse (name : String) (response : RespData) (thought_signature : Option String) : GPart

/-- One Gemini Content turn: a role tag plus its Parts. -/
structure GContent where
  role : String
  parts : List GPart

/-- Role lookup `msg.get("role", "user")` (line 95). -/
def msgRole (m : Msg) : String :=
  m.role.getD "user"

/-- Gemini role mapping (lines 102-107). -/
def geminiRoleOf (role : String) : String :=
  if role = "assistant" then "model"
  else if role = "tool" then "function"
  else "user"

/-- A list item contributing a text Part (lines 117-119): only dict items
with `"type" == "text"`, taking `item.get("text", "")`. -/
def itemTextPart : ContentItem → Option GPart
  | .dict ty text => if ty = some "text" then some (.text (text.getD "")) else none
  | .other => none

/-- Text Parts of a message (lines 112-119): `if content and role != "tool"`,
then one Part for a string, or one Part per text item of a list. -/
def textParts (role : String) (c : Option MsgContent) : List GPart :=
  match c with
  | none => []
  | some (.str s) => if s = "" ∨ role = "tool" then [] else [.text s]
  | some (.items l) => if l.isEmpty ∨ role = "tool" then [] else l.filterMap itemTextPart

/-- Name lookup `tc.get("function", ...).get("name", "")` (lines 124, 136). -/
def tcFname (tc : ToolCall) : String :=
  ((tc.function.bind FuncField.name).getD "")

/-- Arguments of a tool call (lines 125-132): default `"{}"`, parse JSON
text with `{}` fallback, pass non-strings through. -/
def tcArgs (parse : String → Option Json) (tc : ToolCall) : Json :=
  match (tc.function.bind FuncField.arguments).getD (.str "\x7b\x7d") with
  | .str s => (parse s).getD (Json.obj [])
  | .items _ => Json.obj []

/-- One assistant tool call (lines 123-148): build the `functionCall`
Part; when the signature is truthy, attach it and record it in the
pending map. -/
def processTC (parse : String → Option Json) (p : SigMap) (tc : ToolCall) :
    GPart × SigMap :=
  let fname := tcFname tc
  let args := tcArgs parse tc
  if truthyS tc.thought_signature then
    (.functionCall fname args tc.thought_signature,
     (fname, tc.thought_signature.getD "") :: p)
  else
    (.functionCall fname args none, p)

/-- The tool-call loop of one assistant message (line 123). -/
def processTCs (parse : String → Option Json) (p : SigMap) :
    List ToolCall → List GPart × SigMap
  | [] => ([], p)
  | tc :: tcs =>
    let (part, p1) := processTC parse p tc
    let (parts, p2) := processTCs parse p1 tcs
    (part :: parts, p2)

/-- Resolve the function name of a tool-role message (lines 152-156):
explicit `function_name`, else the `tool_call_id` segment before the
first `"_"` (the whole id when it has no `"_"`). -/
def resolveToolName (m : Msg) : String :=
  let fn := m.function_name.getD ""
  if fn = "" then
    let tid := m.tool_call_id.getD ""
    if pyContainsChar tid '_' then pySplitFirst tid '_' else tid
  else fn

/-- Response payload of a tool message (lines 158-165): parse string content as
JSON, wrapping as `{"result": raw}` on failure; `"{}"` when the key is
absent; lists pass through. -/
def toolRespData (parse : String → Option Json) (m : Msg) : RespData :=
  match m.content with
  | none =>
    match parse "\x7b\x7d" with
    | some j => .json j
    | none => .json (.obj [("result", .str "\x7b\x7d")])
  | some (.str s) =>
    match parse s with
    | some j => .json j
    | none => .json (.obj [("result", .str s)])
  | some (.items l) => .passthrough l

/-- Translate one message (loop body, lines 94-184). Returns the Content
turns it contributes (none for system messages or empty Parts) and the
updated pending-signature map. -/
def processMsg (parse : String → Option Json) (p : SigMap) (m : Msg) :
    List GContent × SigMap :=
  let role := msgRole m
  if role = "system" then ([], p)
  else
    let parts0 := textParts role m.content
    let (fcParts, p1) :=
      if role = "assistant" then
        match m.tool_calls with
        | some tcs => processTCs parse p tcs
        | none => ([], p)
      else ([], p)
    if role = "tool" then
      let n := resolveToolName m
      let sig := pyOrS m.thought_signature (p1.lookup n)
      let part := GPart.functionResponse n (toolRespData parse m)
        (if truthyS sig then sig else none)
      let parts := parts0 ++ fcParts ++ [part]
      ([⟨"function", parts⟩], p1)
    else
      let parts := parts0 ++ fcParts
      if parts.isEmpty then ([], p1) else ([⟨geminiRoleOf role, parts⟩], p1)

/-- The message loop of `_build_contents` (lines 91-186), with the
pending map threaded explicitly in place of the mutated dict. -/
def buildContentsCore (parse : String → Option Json) (p : SigMap) :
    List Msg → List GContent × SigMap
  | [] => ([], p)
  | m :: ms =>
    let (c1, p1) := processMsg parse p m
    let (c2, p2) := buildContentsCore parse p1 ms
    (c1 ++ c2, p2)

/-- Line 92, `pending_thought_signatures = pending_thought_signatures or ...`:
(line 92): a falsy argument (absent/None, or an empty dict) is replaced
by a fresh empty dict. -/
def resolvePendingArg (arg : Option SigMap) : SigMap :=
  match arg with
  | none => []
  | some m => if m = [] then [] else m

/-- The function `_build_contents` (lines 76-186). -/
def buildContents (parse : String → Option Json) (msgs : List Msg)
    (arg : Option SigMap) : List GContent × SigMap :=
  buildContentsCore parse (resolvePendingArg arg) msgs

/-- The caller's `pending_thought_signatures` dict after `_build_contents`
returns. Python mutates the dict in place, but line 92 rebinds the local
name to a fresh dict whenever the argument is falsy — so the caller's
dict is updated only when it was passed and non-empty. -/
def callerPendingAfter (parse : String → Option Json) (msgs : List Msg)
    (arg : Option SigMap) : Option SigMap :=
  match arg with
  | none => none
  | some m => if m = [] then some m else some (buildContentsCore parse m msgs).2

/-- The caller's dict after `generate_content_stream` (lines 223, 227):
the same `or {}` rebinding followed by the `_build_contents` mutation. -/
def streamCallerPendingAfter (parse : String → Option Json) (msgs : List Msg)
    (arg : Option SigMap) : Option SigMap :=
  match arg with
  | none => none
  | some m =>
    if m = [] then some m
    else some (buildContentsCore parse m msgs).2

/-- Text of the first system message as `_get_system_instruction` builds
it (lines 199-204): the string content itself, or the `"text"` fields of
all dict items joined by `" "`. An absent content key defaults to `""`. -/
def sysText (m : Msg) : String :=
  match m.content with
  | none => ""
  | some (.str s) => s
  | some (.items l) =>
    String.intercalate " " (l.filterMap fun it =>
      match it with
      | .dict _ text => some (text.getD "")
      | .other => none)

/-- The function `_get_system_instruction` (lines 188-205): scan for the first
`system`-role message and return its single text Part. -/
def getSystemInstruction : List Msg → Option (List GPart)
  | [] => none
  | m :: ms =>
    if m.role = some "system" then some [GPart.text (sysText m)]
    else getSystemInstruction ms

/-! ### Tool definitions and request body -/

/-- The `"function"` sub-dict of one OpenAI tool definition. `name` is
accessed with `func["name"]`, so it is required. -/
structure FuncDef where
  name : String
  description : Option String
  parameters : Option Json

/-- One OpenAI tool definition. -/
structure ToolDef where
  type : Option String
  function : FuncDef

/-- One Gemini function declaration (lines 68-72). -/
structure FuncDecl where
  name : String
  description : String
  parameters : Json

/-- The single Gemini tools object (line 74). -/
structure GTools where
  functionDeclarations : List FuncDecl

/-- The function `_build_tools` (lines 50-74): keeps only `type == "function"` entries. -/
def buildTools (tools : List ToolDef) : List GTools :=
  [⟨tools.filterMap fun t =>
      if t.type = some "function" then
        some ⟨t.function.name, t.function.description.getD "",
              t.function.parameters.getD (Json.obj [])⟩
      else none⟩]

/-- The request body assembled at lines 231-237. The optional
`generationConfig.temperature` (lines 239-242) is a floating-point knob
orthogonal to every claim and is not modelled. -/
structure RequestBody where
  contents : List GContent
  tools : List GTools
  systemInstruction : Option (List GPart)

/-- Request assembly of `generate_content_stream` (lines 226-237). -/
def buildRequestBody (parse : String → Option Json) (msgs : List Msg)
    (tools : List ToolDef) (arg : Option SigMap) : RequestBody :=
  { contents := (buildContents parse msgs arg).1
  , tools := buildTools tools
  , systemInstruction := getSystemInstruction msgs }

/-! ### Gemini-side streaming response model -/

/-- A `functionCall` object inside a streamed Part. -/
structure FC where
  name : Option String
  args : Option Json
  thought_signature : Option String

/-- One streamed Part: the source tests the keys `"text"` and
`"functionCall"` independently, so both are optional fields. -/
structure Part where
  text : Option String
  functionCall : Option FC

/-- One streamed Content object. The wire shape may carry a
message-level `thought_signature` (spec §3), but the source reads only
`"parts"` from it (line 288). -/
structure ContentObj where
  parts : List Part
  thought_signature : Option String

/-- One candidate: `candidate.get("content", {})`. -/
structure Cand where
  content : Option ContentObj

/-- Fields of `usageMetadata`, each read with a `0` default. -/
structure UsageMeta where
  promptTokenCount : Option Nat
  candidatesTokenCount : Option Nat
  totalTokenCount : Option Nat

/-- One decoded SSE chunk: `chunk.get("candidates", [])` plus the
optional `usageMetadata`. -/
structure Chunk where
  candidates : List Cand
  usageMetadata : Option UsageMeta

/-- The nested `"function"` dict of a normalized tool-call descriptor. -/
structure FnOut where
  name : String
  arguments : String
deriving DecidableEq

/-- One normalized tool-call descriptor (lines 303-316). -/
structure ToolCallOut where
  id : String
  type : String
  function : FnOut
  thought_signature : Option String
deriving DecidableEq

/-- Normalized usage payload (lines 328-332). -/
structure UsageOut where
  prompt_tokens : Nat
  completion_tokens : Nat
  total_tokens : Nat
deriving DecidableEq

/-- One normalized stream event. `complete.usage` is `none` when no
`usageMetadata` chunk arrived (the source's initial `{}`). -/
inductive Event where
  | content (text : String) : Event
  | toolCall (tc : ToolCallOut) : Event
  | complete (content : String) (tool_calls : List ToolCallOut)
      (usage : Option UsageOut) (finish_reason : String) : Event
  | error (msg : String) : Event
deriving DecidableEq

/-- The per-turn accumulators (lines 265-267). -/
structure SState where
  text : String
  toolCalls : List ToolCallOut
  usage : Option UsageOut

/-- Initial accumulators: empty text, no tool calls, no usage (lines 265-267). -/
def initState : SState := ⟨"", [], none⟩

/-- Process one Part (lines 288-323): an optional text delta, then an
optional function call with the synthesized `"<name>_<ordinal>"` id and
the captured part-level signature. -/
def processPart (dumps : Json → String) (st : SState) (p : Part) :
    List Event × SState :=
  let (evs1, st1) :=
    match p.text with
    | some t => ([Event.content t], { st with text := st.text ++ t })
    | none => ([], st)
  match p.functionCall with
  | some fc =>
    let n := fc.name.getD ""
    let tc : ToolCallOut :=
      { id := n ++ "_" ++ Nat.repr st1.toolCalls.length
      , type := "function"
      , function := ⟨n, dumps (fc.args.getD (Json.obj []))⟩
      , thought_signature :=
          if truthyS fc.thought_signature then fc.thought_signature else none }
    (evs1 ++ [Event.toolCall tc], { st1 with toolCalls := st1.toolCalls ++ [tc] })
  | none => (evs1, st1)

/-- The Part loop of one candidate. -/
def processParts (dumps : Json → String) (st : SState) :
    List Part → List Event × SState
  | [] => ([], st)
  | p :: ps =>
    let (e1, st1) := processPart dumps st p
    let (e2, st2) := processParts dumps st1 ps
    (e1 ++ e2, st2)

/-- One candidate (lines 285-288): read `content.parts` with defaults. -/
def processCand (dumps : Json → String) (st : SState) (c : Cand) :
    List Event × SState :=
  processParts dumps st (c.content.getD ⟨[], none⟩).parts

/-- The candidate loop of one chunk. -/
def processCands (dumps : Json → String) (st : SState) :
    List Cand → List Event × SState
  | [] => ([], st)
  | c :: cs =>
    let (e1, st1) := processCand dumps st c
    let (e2, st2) := processCands dumps st1 cs
    (e1 ++ e2, st2)

/-- Normalized usage (lines 328-332). -/
def trUsage (u : UsageMeta) : UsageOut :=
  ⟨u.promptTokenCount.getD 0, u.candidatesTokenCount.getD 0, u.totalTokenCount.getD 0⟩

/-- One decoded chunk (lines 285-332): all candidates, then the
last-seen-wins usage overwrite. -/
def processChunk (dumps : Json → String) (st : SState) (ch : Chunk) :
    List Event × SState :=
  let (evs, st1) := processCands dumps st ch.candidates
  match ch.usageMetadata with
  | some u => (evs, { st1 with usage := some (trUsage u) })
  | none => (evs, st1)

/-- One SSE line (lines 270-282): strip, skip blank and `":"` comment
lines, decode the payload after `"data: "` (skipping undecodable ones),
ignore anything else. -/
def processLine (parse : String → Option Chunk) (dumps : Json → String)
    (st : SState) (line : String) : List Event × SState :=
  if pyStrip line = "" ∨ pyStartsWith (pyStrip line) ":" then ([], st)
  else if pyStartsWith (pyStrip line) "data: " then
    match parse (pyDropStr (pyStrip line) 6) with
    | none => ([], st)
    | some ch => processChunk dumps st ch
  else ([], st)

/-- The SSE line loop (line 270). -/
def processLines (parse : String → Option Chunk) (dumps : Json → String)
    (st : SState) : List String → List Event × SState
  | [] => ([], st)
  | l :: ls =>
    let (e1, st1) := processLine parse dumps st l
    let (e2, st2) := processLines parse dumps st1 ls
    (e1 ++ e2, st2)

/-- The outcome of the single HTTP attempt: a response with its status,
body text (read when the status is not 200) and decoded SSE lines, or a
raised exception with its message. -/
inductive Transport where
  | response (status : Nat) (body : String) (lines : List String) : Transport
  | exception (msg : String) : Transport

/-- The event sequence yielded by `generate_content_stream`
(lines 250-348) for one transport outcome: a single error event on a
non-200 status (lines 256-263) or a raised exception (lines 343-348);
otherwise the translated line events followed by the one `complete`
event (lines 334-341). -/
def generateContentStream (parse : String → Option Chunk)
    (dumps : Json → String) (t : Transport) : List Event :=
  match t with
  | .exception e => [.error e]
  | .response status body lines =>
    if status ≠ 200 then
      [.error ("API error " ++ Nat.repr status ++ ": " ++ pyTakeStr body 500)]
    else
      let (evs, st) := processLines parse dumps initState lines
      evs ++ [.complete st.text st.toolCalls st.usage
        (if st.toolCalls.isEmpty then "stop" else "tool_calls")]

/-! ### Model-family helpers -/

/-- The helper `is_gemini_model` (lines 387-389). -/
def is_gemini_model (model : String) : Bool :=
  pyStartsWith model "gemini-"

/-- The helper `is_gemini_3_model` (lines 392-395). -/
def is_gemini_3_model (model : String) : Bool :=
  ["gemini-3", "gemini-4", "gemini-5"].any (fun p => pyStartsWith model p)

/-! ### Derived observations used by the claims -/

/-- The signed tool calls `(name, signature)` recorded into the pending
map by one message: assistant messages with a `tool_calls` key, keeping
calls whose signature is truthy (mirrors lines 122, 142-146). -/
def signedCalls (m : Msg) : List (String × String) :=
  if msgRole m = "assistant" then
    match m.tool_calls with
    | some tcs =>
      tcs.filterMap fun tc =>
        if truthyS tc.thought_signature then
          some (tcFname tc, tc.thought_signature.getD "")
        else none
    | none => []
  else []

/-- The signature of the last signed call to function `n` in `msgs`. -/
def lastSigIn (msgs : List Msg) (n : String) : Option String :=
  ((msgs.flatMap signedCalls).reverse).lookup n

/-- Payloads of all `content` events, in order. -/
def contentPayloads (evs : List Event) : List String :=
  evs.filterMap fun e =>
    match e with
    | .content t => some t
    | _ => none

/-- Descriptors of all `tool_call` events, in order. -/
def toolCallDescs (evs : List Event) : List ToolCallOut :=
  evs.filterMap fun e =>
    match e with
    | .toolCall tc => some tc
    | _ => none

/-- Whether an event is the terminal `complete`. -/
def isComplete : Event → Bool
  | .complete _ _ _ _ => true
  | _ => false

/-- Whether an event is an `error`. -/
def isError : Event → Bool
  | .error _ => true
  | _ => false


/-! ### Decimal representation facts (for tool-call id uniqueness) -/

/-- Numeric value of a decimal digit character. -/
def digitVal (c : Char) : Nat := c.toNat - '0'.toNat

/-- One step of reading a decimal string left to right. -/
def pushDig (v : Nat) (c : Char) : Nat := v * 10 + digitVal c

theorem digitVal_digitChar {d : Nat} (h : d < 10) :
    digitVal (Nat.digitChar d) = d := by
  interval_cases d <;> decide

theorem digitChar_ne_underscore {d : Nat} (h : d < 10) :
    Nat.digitChar d ≠ '_' := by
  interval_cases d <;> decide

/-- Number of decimal digits of `n` (one digit for `n < 10`). -/
def numDigits (n : Nat) : Nat :=
  if n < 10 then 1 else numDigits (n / 10) + 1
decreasing_by
  exact Nat.div_lt_self (by omega) (by omega)

theorem numDigits_small {n : Nat} (h : n < 10) : numDigits n = 1 := by
  rw [numDigits]
  simp [h]

theorem numDigits_large {n : Nat} (h : ¬ n < 10) :
    numDigits n = numDigits (n / 10) + 1 := by
  conv_lhs => rw [numDigits]
  simp [h]

theorem foldl_toDigitsCore :
    ∀ (f n : Nat) (acc : List Char) (v : Nat), n < f →
      List.foldl pushDig v (Nat.toDigitsCore 10 f n acc) =
        List.foldl pushDig (v * 10 ^ numDigits n + n) acc := by
  intro f
  induction f with
  | zero => intro n acc v h; omega
  | succ f ih =>
    intro n acc v h
    by_cases h0 : n / 10 = 0
    · have hn : n < 10 := by omega
      simp only [Nat.toDigitsCore, h0, if_true, List.foldl_cons]
      have h1 : pushDig v (Nat.digitChar (n % 10)) = v * 10 + n := by
        unfold pushDig
        rw [show digitVal (Nat.digitChar (n % 10)) = n % 10 from
          digitVal_digitChar (Nat.mod_lt n (by omega))]
        omega
      rw [h1, numDigits_small hn, pow_one]
    · have hge : 10 ≤ n := by omega
      have hlt : n / 10 < f := by omega
      simp only [Nat.toDigitsCore, h0, if_false]
      rw [ih (n / 10) _ v hlt, List.foldl_cons]
      have h1 : pushDig (v * 10 ^ numDigits (n / 10) + n / 10) (Nat.digitChar (n % 10)) =
          v * 10 ^ numDigits n + n := by
        unfold pushDig
        rw [show digitVal (Nat.digitChar (n % 10)) = n % 10 from
          digitVal_digitChar (Nat.mod_lt n (by omega))]
        rw [show numDigits n = numDigits (n / 10) + 1 from numDigits_large (by omega)]
        rw [pow_succ, ← Nat.mul_assoc]
        set B := v * 10 ^ numDigits (n / 10) with hB
        omega
      rw [h1]

theorem repr_injective {m n : Nat} (h : Nat.repr m = Nat.repr n) : m = n := by
  have hdata : Nat.toDigits 10 m = Nat.toDigits 10 n := congrArg String.data h
  have hm := foldl_toDigitsCore (m + 1) m [] 0 (by omega)
  have hn := foldl_toDigitsCore (n + 1) n [] 0 (by omega)
  simp only [List.foldl_nil, Nat.zero_mul, Nat.zero_add] at hm hn
  have hm' : List.foldl pushDig 0 (Nat.toDigits 10 m) = m := hm
  have hn' : List.foldl pushDig 0 (Nat.toDigits 10 n) = n := hn
  rw [hdata, hn'] at hm'
  omega

theorem toDigitsCore_no_underscore :
    ∀ (f n : Nat) (acc : List Char), ('_' ∉ acc) →
      '_' ∉ Nat.toDigitsCore 10 f n acc := by
  intro f
  induction f with
  | zero => intro n acc h; simpa [Nat.toDigitsCore] using h
  | succ f ih =>
    intro n acc h
    by_cases h0 : n / 10 = 0
    · simp only [Nat.toDigitsCore, h0, if_true]
      intro hmem
      rcases List.mem_cons.mp hmem with he | ha
      · exact digitChar_ne_underscore (Nat.mod_lt n (by omega)) he.symm
      · exact h ha
    · simp only [Nat.toDigitsCore, h0, if_false]
      apply ih
      intro hmem
      rcases List.mem_cons.mp hmem with he | ha
      · exact digitChar_ne_underscore (Nat.mod_lt n (by omega)) he.symm
      · exact h ha

theorem repr_no_underscore (n : Nat) : '_' ∉ (Nat.repr n).data :=
  toDigitsCore_no_underscore (n + 1) n [] (by simp)

theorem split_at_underscore :
    ∀ (as bs xs ys : List Char), '_' ∉ as → '_' ∉ bs →
      as ++ '_' :: xs = bs ++ '_' :: ys → as = bs ∧ xs = ys := by
  intro as
  induction as with
  | nil =>
    intro bs xs ys _ hb heq
    cases bs with
    | nil => simpa using heq
    | cons b bs' =>
      simp only [List.nil_append, List.cons_append, List.cons.injEq] at heq
      exact absurd (heq.1.symm ▸ List.mem_cons_self b bs') hb
  | cons a as' ih =>
    intro bs xs ys ha hb heq
    cases bs with
    | nil =>
      simp only [List.nil_append, List.cons_append, List.cons.injEq] at heq
      exact absurd (heq.1 ▸ List.mem_cons_self a as') ha
    | cons b bs' =>
      simp only [List.cons_append, List.cons.injEq] at heq
      obtain ⟨hab, htl⟩ := heq
      have := ih bs' xs ys (fun hm => ha (List.mem_cons_of_mem a hm))
        (fun hm => hb (List.mem_cons_of_mem b hm)) htl
      exact ⟨by simp [hab, this.1], this.2⟩

/-- The synthesized id `"<name>_<ordinal>"` determines the ordinal: the
digits after the last underscore recover it, whatever the names are. -/
theorem synth_id_injective {n₁ n₂ : String} {i j : Nat}
    (h : n₁ ++ "_" ++ Nat.repr i = n₂ ++ "_" ++ Nat.repr j) : i = j := by
  have hdata := congrArg String.data h
  simp only [String.data_append] at hdata
  simp only [List.append_assoc, List.singleton_append] at hdata
  have hrev := congrArg List.reverse hdata
  simp only [List.reverse_append, List.reverse_cons] at hrev
  simp only [List.append_assoc, List.singleton_append] at hrev
  have := split_at_underscore _ _ _ _
    (by intro hm; exact repr_no_underscore i (List.mem_reverse.mp hm))
    (by intro hm; exact repr_no_underscore j (List.mem_reverse.mp hm)) hrev
  have hdig : (Nat.repr i).data = (Nat.repr j).data :=
    List.reverse_injective this.1
  exact repr_injective (String.ext hdig)

/-! ### Unfolding lemmas for the paired-state recursions -/

theorem buildContentsCore_cons (parse : String → Option Json) (p : SigMap)
    (m : Msg) (ms : List Msg) :
    buildContentsCore parse p (m :: ms) =
      ((processMsg parse p m).1 ++
         (buildContentsCore parse (processMsg parse p m).2 ms).1,
       (buildContentsCore parse (processMsg parse p m).2 ms).2) := rfl

theorem processTCs_cons (parse : String → Option Json) (p : SigMap)
    (tc : ToolCall) (tcs : List ToolCall) :
    processTCs parse p (tc :: tcs) =
      ((processTC parse p tc).1 ::
         (processTCs parse (processTC parse p tc).2 tcs).1,
       (processTCs parse (processTC parse p tc).2 tcs).2) := rfl

theorem processParts_cons (dumps : Json → String) (st : SState)
    (p : Part) (ps : List Part) :
    processParts dumps st (p :: ps) =
      ((processPart dumps st p).1 ++
         (processParts dumps (processPart dumps st p).2 ps).1,
       (processParts dumps (processPart dumps st p).2 ps).2) := rfl

theorem processCands_cons (dumps : Json → String) (st : SState)
    (c : Cand) (cs : List Cand) :
    processCands dumps st (c :: cs) =
      ((processCand dumps st c).1 ++
         (processCands dumps (processCand dumps st c).2 cs).1,
       (processCands dumps (processCand dumps st c).2 cs).2) := rfl

theorem processLines_cons (parse : String → Option Chunk) (dumps : Json → String)
    (st : SState) (l : String) (ls : List String) :
    processLines parse dumps st (l :: ls) =
      ((processLine parse dumps st l).1 ++
         (processLines parse dumps (processLine parse dumps st l).2 ls).1,
       (processLines parse dumps (processLine parse dumps st l).2 ls).2) := rfl

/-! ### Pending-signature bookkeeping lemmas -/

/-- The signed calls of one tool-call list, as recorded left to right. -/
def signedOf (tcs : List ToolCall) : List (String × String) :=
  tcs.filterMap fun tc =>
    if truthyS tc.thought_signature then
      some (tcFname tc, tc.thought_signature.getD "")
    else none

theorem processTCs_snd (parse : String → Option Json) :
    ∀ (tcs : List ToolCall) (p : SigMap),
      (processTCs parse p tcs).2 = (signedOf tcs).reverse ++ p := by
  intro tcs
  induction tcs with
  | nil => intro p; simp [processTCs, signedOf]
  | cons tc tcs ih =>
    intro p
    rw [processTCs_cons, ih]
    by_cases h : truthyS tc.thought_signature
    · simp only [signedOf, List.filterMap_cons, h, if_true, List.reverse_cons,
        List.append_assoc, List.singleton_append]
      simp [processTC, h, signedOf]
    · simp only [signedOf, List.filterMap_cons, h, if_false]
      simp [processTC, h, signedOf]

theorem processMsg_snd (parse : String → Option Json) (p : SigMap) (m : Msg) :
    (processMsg parse p m).2 = (signedCalls m).reverse ++ p := by
  unfold processMsg signedCalls
  by_cases hs : msgRole m = "system"
  · simp [hs]
  · simp only [hs, if_false]
    by_cases ha : msgRole m = "assistant"
    · cases htc : m.tool_calls with
      | none =>
        simp only [ha, if_true, htc]
        split
        · next h => exact absurd h (by decide)
        · split <;> rfl
      | some tcs =>
        simp only [ha, if_true, htc]
        have hp := processTCs_snd parse tcs p
        unfold signedOf at hp
        rw [hp]
        split
        · next h => exact absurd h (by decide)
        · split <;> rfl
    · simp only [ha, if_false]
      by_cases ht : msgRole m = "tool"
      · simp [ht, ha]
      · simp only [ht, if_false]
        split <;> rfl

theorem buildContentsCore_snd (parse : String → Option Json) :
    ∀ (msgs : List Msg) (p : SigMap),
      (buildContentsCore parse p msgs).2 = (msgs.flatMap signedCalls).reverse ++ p := by
  intro msgs
  induction msgs with
  | nil => intro p; simp [buildContentsCore]
  | cons m ms ih =>
    intro p
    rw [buildContentsCore_cons, ih, processMsg_snd]
    simp [List.flatMap_cons, List.reverse_append, List.append_assoc]

/-! ### Appending conversations -/

theorem buildContentsCore_append (parse : String → Option Json) (a b : List Msg) :
    ∀ p, buildContentsCore parse p (a ++ b) =
      ((buildContentsCore parse p a).1 ++
        (buildContentsCore parse (buildContentsCore parse p a).2 b).1,
       (buildContentsCore parse (buildContentsCore parse p a).2 b).2) := by
  induction a with
  | nil => intro p; simp [buildContentsCore]
  | cons m ms ih =>
    intro p
    simp only [List.cons_append, buildContentsCore_cons, ih, List.append_assoc]

/-! ### Stream-state invariants -/

/-- Concatenation of the payloads of all `content` events, in order. -/
def catTexts : List Event → String
  | [] => ""
  | .content t :: es => t ++ catTexts es
  | .toolCall _ :: es => catTexts es
  | .complete _ _ _ _ :: es => catTexts es
  | .error _ :: es => catTexts es

theorem catTexts_append : ∀ (a b : List Event),
    catTexts (a ++ b) = catTexts a ++ catTexts b := by
  intro a
  induction a with
  | nil => intro b; simp [catTexts]
  | cons e es ih =>
    intro b
    cases e <;> simp [catTexts, ih, String.append_assoc]

theorem toolCallDescs_append (a b : List Event) :
    toolCallDescs (a ++ b) = toolCallDescs a ++ toolCallDescs b := by
  simp [toolCallDescs, List.filterMap_append]

/-- What one translation step does to the accumulators: the text grows by
the emitted `content` payloads, the tool-call list by the emitted
descriptors, only `content`/`tool_call` events are emitted, and every
emitted descriptor's id is its function name, an underscore, and its
ordinal position in the accumulated list. -/
def StepOK (st : SState) (evs : List Event) (st' : SState) : Prop :=
  st'.text = st.text ++ catTexts evs ∧
  st'.toolCalls = st.toolCalls ++ toolCallDescs evs ∧
  (∀ e ∈ evs, isComplete e = false ∧ isError e = false) ∧
  ∀ k (hk : k < (toolCallDescs evs).length),
    ((toolCallDescs evs)[k]).id =
      ((toolCallDescs evs)[k]).function.name ++ "_" ++
        Nat.repr (st.toolCalls.length + k)

theorem StepOK_nil (st : SState) : StepOK st [] st := by
  refine ⟨by simp [catTexts], by simp [toolCallDescs], by simp, ?_⟩
  intro k hk
  simp [toolCallDescs] at hk

theorem StepOK_trans {st st1 st2 : SState} {e1 e2 : List Event}
    (h1 : StepOK st e1 st1) (h2 : StepOK st1 e2 st2) :
    StepOK st (e1 ++ e2) st2 := by
  obtain ⟨ht1, hc1, hm1, hi1⟩ := h1
  obtain ⟨ht2, hc2, hm2, hi2⟩ := h2
  refine ⟨?_, ?_, ?_, ?_⟩
  · rw [ht2, ht1, catTexts_append, String.append_assoc]
  · rw [hc2, hc1, toolCallDescs_append, List.append_assoc]
  · intro e he
    rcases List.mem_append.mp he with h | h
    · exact hm1 e h
    · exact hm2 e h
  · intro k hk
    simp only [toolCallDescs_append] at hk ⊢
    have hlen : st1.toolCalls.length =
        st.toolCalls.length + (toolCallDescs e1).length := by
      rw [hc1, List.length_append]
    by_cases hklt : k < (toolCallDescs e1).length
    · rw [List.getElem_append_left hklt]
      exact hi1 k hklt
    · have hge : (toolCallDescs e1).length ≤ k := by omega
      rw [List.getElem_append_right hge]
      have := hi2 (k - (toolCallDescs e1).length) (by
        rw [List.length_append] at hk
        omega)
      rw [this]
      have harith : st1.toolCalls.length + (k - (toolCallDescs e1).length) =
          st.toolCalls.length + k := by omega
      rw [harith]

theorem processPart_StepOK (dumps : Json → String) (st : SState) (p : Part) :
    StepOK st (processPart dumps st p).1 (processPart dumps st p).2 := by
  unfold processPart
  cases ht : p.text with
  | none =>
    cases hf : p.functionCall with
    | none => exact StepOK_nil st
    | some fc =>
      refine ⟨by simp [catTexts], by simp [toolCallDescs], ?_, ?_⟩
      · intro e he
        simp only [List.nil_append, List.mem_singleton] at he
        subst he
        exact ⟨rfl, rfl⟩
      · intro k hk
        simp only [toolCallDescs, List.nil_append, List.filterMap] at hk ⊢
        have hk0 : k = 0 := by
          simp at hk
          omega
        subst hk0
        simp
  | some t =>
    cases hf : p.functionCall with
    | none =>
      refine ⟨by simp [catTexts], by simp [toolCallDescs], ?_, ?_⟩
      · intro e he
        simp only [List.mem_singleton] at he
        subst he
        exact ⟨rfl, rfl⟩
      · intro k hk
        simp [toolCallDescs] at hk
    | some fc =>
      refine ⟨by simp [catTexts], by simp [toolCallDescs, catTexts], ?_, ?_⟩
      · intro e he
        simp only [List.mem_append, List.mem_singleton] at he
        rcases he with he | he <;> subst he <;> exact ⟨rfl, rfl⟩
      · intro k hk
        simp only [toolCallDescs, List.filterMap] at hk ⊢
        have hk0 : k = 0 := by
          simp at hk
          omega
        subst hk0
        simp

theorem processParts_StepOK (dumps : Json → String) :
    ∀ (ps : List Part) (st : SState),
      StepOK st (processParts dumps st ps).1 (processParts dumps st ps).2 := by
  intro ps
  induction ps with
  | nil => intro st; exact StepOK_nil st
  | cons p ps ih =>
    intro st
    rw [processParts_cons]
    exact StepOK_trans (processPart_StepOK dumps st p) (ih _)

theorem processCand_StepOK (dumps : Json → String) (st : SState) (c : Cand) :
    StepOK st (processCand dumps st c).1 (processCand dumps st c).2 :=
  processParts_StepOK dumps _ st

theorem processCands_StepOK (dumps : Json → String) :
    ∀ (cs : List Cand) (st : SState),
      StepOK st (processCands dumps st cs).1 (processCands dumps st cs).2 := by
  intro cs
  induction cs with
  | nil => intro st; exact StepOK_nil st
  | cons c cs ih =>
    intro st
    rw [processCands_cons]
    exact StepOK_trans (processCand_StepOK dumps st c) (ih _)

theorem StepOK_setUsage {st st1 : SState} {evs : List Event} (u : Option UsageOut)
    (h : StepOK st evs st1) : StepOK st evs { st1 with usage := u } := by
  obtain ⟨h1, h2, h3, h4⟩ := h
  exact ⟨h1, h2, h3, h4⟩

theorem processChunk_StepOK (dumps : Json → String) (st : SState) (ch : Chunk) :
    StepOK st (processChunk dumps st ch).1 (processChunk dumps st ch).2 := by
  unfold processChunk
  cases hu : ch.usageMetadata with
  | none => exact processCands_StepOK dumps _ st
  | some u => exact StepOK_setUsage _ (processCands_StepOK dumps _ st)

theorem processLine_StepOK (parse : String → Option Chunk) (dumps : Json → String)
    (st : SState) (line : String) :
    StepOK st (processLine parse dumps st line).1 (processLine parse dumps st line).2 := by
  unfold processLine
  split
  · exact StepOK_nil st
  · split
    · cases hp : parse (pyDropStr (pyStrip line) 6) with
      | none => exact StepOK_nil st
      | some ch => exact processChunk_StepOK dumps st ch
    · exact StepOK_nil st

theorem processLines_StepOK (parse : String → Option Chunk) (dumps : Json → String) :
    ∀ (ls : List String) (st : SState),
      StepOK st (processLines parse dumps st ls).1 (processLines parse dumps st ls).2 := by
  intro ls
  induction ls with
  | nil => intro st; exact StepOK_nil st
  | cons l ls ih =>
    intro st
    rw [processLines_cons]
    exact StepOK_trans (processLine_StepOK parse dumps st l) (ih _)

/-- A 200 response unfolds to the translated line events followed by the
single `complete` event built from the final accumulators. -/
theorem stream200_eq (parse : String → Option Chunk) (dumps : Json → String)
    (body : String) (lines : List String) :
    generateContentStream parse dumps (.response 200 body lines) =
      (processLines parse dumps initState lines).1 ++
        [.complete (processLines parse dumps initState lines).2.text
          (processLines parse dumps initState lines).2.toolCalls
          (processLines parse dumps initState lines).2.usage
          (if (processLines parse dumps initState lines).2.toolCalls.isEmpty
            then "stop" else "tool_calls")] := by
  simp [generateContentStream]

/-- The final accumulators of a run started from the initial state. -/
theorem run_final (parse : String → Option Chunk) (dumps : Json → String)
    (lines : List String) :
    (processLines parse dumps initState lines).2.text =
      catTexts (processLines parse dumps initState lines).1 ∧
    (processLines parse dumps initState lines).2.toolCalls =
      toolCallDescs (processLines parse dumps initState lines).1 ∧
    (∀ e ∈ (processLines parse dumps initState lines).1,
      isComplete e = false ∧ isError e = false) ∧
    ∀ k (hk : k < (processLines parse dumps initState lines).2.toolCalls.length),
      ((processLines parse dumps initState lines).2.toolCalls[k]).id =
        ((processLines parse dumps initState lines).2.toolCalls[k]).function.name
          ++ "_" ++ Nat.repr k := by
  obtain ⟨h1, h2, h3, h4⟩ := processLines_StepOK parse dumps lines initState
  have h0t : initState.text = "" := rfl
  have h0c : initState.toolCalls = ([] : List ToolCallOut) := rfl
  rw [h0t] at h1
  rw [h0c, List.nil_append] at h2
  refine ⟨by rw [h1]; simp, h2, h3, ?_⟩
  intro k hk
  simp only [h2] at hk ⊢
  have hid := h4 k hk
  rw [hid]
  rw [show initState.toolCalls.length + k = k from by rw [h0c]; simp]

/-! ### Concrete fixtures for closed instances -/

/-- A JSON decoder that rejects everything (the adapter must behave
uniformly in the codec, so any concrete choice exercises the paths). -/
def fxParseNone : String → Option Json := fun _ => none

/-- A JSON encoder that prints nothing. -/
def fxDumpsEmpty : Json → String := fun _ => ""

/-- Assistant message with one tool call to `"f"` signed `"sigA"`. -/
def fxAssistantSigned : Msg :=
  ⟨some "assistant", none, some [⟨some ⟨some "f", none⟩, some "sigA"⟩], none, none, none⟩

/-- Tool message answering `"f"`, identified only by `tool_call_id`
`"f_0"`, with no signature of its own. -/
def fxToolMsg : Msg :=
  ⟨some "tool", some (.str "ok"), none, none, some "f_0", none⟩

/-- System message whose content is two text segments `"a"`, `"b"`. -/
def fxSystemTwo : Msg :=
  ⟨some "system",
   some (.items [.dict (some "text") (some "a"), .dict (some "text") (some "b")]),
   none, none, none, none⟩

/-- System message with plain string content. -/
def fxSystemOne : Msg :=
  ⟨some "system", some (.str "be brief"), none, none, none, none⟩

/-- A streamed chunk holding one text Part `"hello"`. -/
def fxChunkHello : Chunk := ⟨[⟨some ⟨[⟨some "hello", none⟩], none⟩⟩], none⟩

/-- Chunk decoder accepting only the payload `"OK"`. -/
def fxParseHello : String → Option Chunk :=
  fun s => if s = "OK" then some fxChunkHello else none

/-- A chunk whose enclosing Content carries `thought_signature "sigC"`
while its single functionCall Part carries none. -/
def fxChunkEnclosing : Chunk :=
  ⟨[⟨some ⟨[⟨none, some ⟨some "f", none, none⟩⟩], some "sigC"⟩⟩], none⟩

/-- Chunk decoder accepting only the payload `"X"`. -/
def fxParseEnclosing : String → Option Chunk :=
  fun s => if s = "X" then some fxChunkEnclosing else none

/-- A chunk with two functionCall Parts for the same function `"f"`. -/
def fxChunkTwoCalls : Chunk :=
  ⟨[⟨some ⟨[⟨none, some ⟨some "f", none, none⟩⟩,
            ⟨none, some ⟨some "f", none, none⟩⟩], none⟩⟩], none⟩

/-- Chunk decoder accepting only the payload `"T"`. -/
def fxParseTwoCalls : String → Option Chunk :=
  fun s => if s = "T" then some fxChunkTwoCalls else none

/-- Chunk decoder rejecting everything. -/
def fxParseChunkNone : String → Option Chunk := fun _ => none

/-- A streamed Part whose functionCall carries signature `"sig1"`. -/
def fxPartSigned : Part := ⟨none, some ⟨some "g", none, some "sig1"⟩⟩

/-! ### Request-side helper lemmas -/

theorem textParts_tool (c : Option MsgContent) : textParts "tool" c = [] := by
  cases c with
  | none => rfl
  | some mc => cases mc <;> simp [textParts]

/-- Translation of one tool-role message: exactly one `"function"` turn
holding one functionResponse Part, with the signature drawn from the
message itself or from the pending map; the pending map is unchanged. -/
theorem processMsg_tool (parse : String → Option Json) (p : SigMap) (m : Msg)
    (h : msgRole m = "tool") :
    processMsg parse p m =
      ([⟨"function", [GPart.functionResponse (resolveToolName m) (toolRespData parse m)
          (if truthyS (pyOrS m.thought_signature (p.lookup (resolveToolName m))) then
            pyOrS m.thought_signature (p.lookup (resolveToolName m)) else none)]⟩], p) := by
  unfold processMsg
  have hs : ¬ msgRole m = "system" := by rw [h]; decide
  have ha : ¬ msgRole m = "assistant" := by rw [h]; decide
  simp only [hs, if_false, ha, if_false, h, if_true, textParts_tool]
  simp

theorem processMsg_roles (parse : String → Option Json) (p : SigMap) (m : Msg)
    (c : GContent) (h : c ∈ (processMsg parse p m).1) :
    c.role = "model" ∨ c.role = "function" ∨ c.role = "user" := by
  unfold processMsg at h
  by_cases hs : msgRole m = "system"
  · simp [hs] at h
  · simp only [hs, if_false] at h
    by_cases ht : msgRole m = "tool"
    · simp only [ht, if_true] at h
      simp at h
      right; left
      rw [h]
    · simp only [ht, if_false] at h
      by_cases he : (textParts (msgRole m) m.content ++
          (if msgRole m = "assistant" then
            match m.tool_calls with
            | some tcs => processTCs parse p tcs
            | none => ([], p)
          else ([], p)).1).isEmpty
      · simp [he] at h
      · simp only [he, if_false] at h
        simp at h
        rw [h]
        show geminiRoleOf (msgRole m) = _ ∨ geminiRoleOf (msgRole m) = _ ∨
          geminiRoleOf (msgRole m) = _
        unfold geminiRoleOf
        split_ifs <;> simp

theorem buildContentsCore_roles (parse : String → Option Json) :
    ∀ (msgs : List Msg) (p : SigMap) (c : GContent),
      c ∈ (buildContentsCore parse p msgs).1 →
      c.role = "model" ∨ c.role = "function" ∨ c.role = "user" := by
  intro msgs
  induction msgs with
  | nil => intro p c h; simp [buildContentsCore] at h
  | cons m ms ih =>
    intro p c h
    rw [buildContentsCore_cons] at h
    rcases List.mem_append.mp h with h | h
    · exact processMsg_roles parse p m c h
    · exact ih _ c h

theorem getSystemInstruction_skip :
    ∀ (l1 : List Msg), (∀ x ∈ l1, x.role ≠ some "system") →
      ∀ (rest : List Msg),
        getSystemInstruction (l1 ++ rest) = getSystemInstruction rest := by
  intro l1
  induction l1 with
  | nil => intro _ rest; rfl
  | cons m ms ih =>
    intro h rest
    have hm : ¬ m.role = some "system" := h m (List.mem_cons_self m ms)
    simp only [List.cons_append, getSystemInstruction, hm, if_false]
    exact ih (fun x hx => h x (List.mem_cons_of_mem m hx)) rest

/-! ### Claim theorems -/

/-- C3 (counterexample): the claim says the model identifier is
classified after stripping a provider-prefix path segment, so
`is_gemini_model "models/gemini-2.5-flash"` would be true; the source
does no stripping and returns false on that very input. -/
theorem model_family_no_strip_counterexample :
    is_gemini_model "models/gemini-2.5-flash" = false := by decide

/-- C3 (amended): `is_gemini_model name` is true iff `name` itself starts
with `"gemini-"` (no provider-prefix stripping, so
`"models/gemini-2.5-flash"` is rejected), and `is_gemini_3_model` is
true iff `name` itself starts with `"gemini-3"`, `"gemini-4"` or
`"gemini-5"` (false for `"gemini-2.5-flash"`, true for
`"gemini-3-flash-preview"`). -/
theorem model_family_classification :
    (∀ m : String, is_gemini_model m = true ↔ "gemini-".data <+: m.data) ∧
    (∀ m : String, is_gemini_3_model m = true ↔
       ("gemini-3".data <+: m.data ∨ "gemini-4".data <+: m.data ∨
        "gemini-5".data <+: m.data)) ∧
    is_gemini_model "gemini-2.5-flash" = true ∧
    is_gemini_model "models/gemini-2.5-flash" = false ∧
    is_gemini_3_model "gemini-2.5-flash" = false ∧
    is_gemini_3_model "gemini-3-flash-preview" = true := by
  refine ⟨?_, ?_, by decide, by decide, by decide, by decide⟩
  · intro m
    simp [is_gemini_model, pyStartsWith, List.isPrefixOf_iff_prefix]
  · intro m
    simp [is_gemini_3_model, pyStartsWith, List.isPrefixOf_iff_prefix]

/-- C1: in `_build_contents`, when the last signed assistant tool call
to function `n` before a tool-role message carried signature `s`, and
that tool message resolves to `n` (via `function_name` or the
`tool_call_id` prefix) and has no signature field of its own, the
message's `functionResponse` Part carries `thought_signature = s`. -/
theorem roundtrip_signature_propagation
    (parse : String → Option Json) (l1 l2 : List Msg) (tm : Msg) (p0 : SigMap)
    (n s : String)
    (htool : msgRole tm = "tool")
    (hname : resolveToolName tm = n)
    (hnosig : tm.thought_signature = none)
    (hlast : lastSigIn l1 n = some s)
    (hs : s ≠ "") :
    (buildContentsCore parse p0 (l1 ++ tm :: l2)).1 =
      (buildContentsCore parse p0 l1).1 ++
        ⟨"function", [GPart.functionResponse n (toolRespData parse tm) (some s)]⟩ ::
        (buildContentsCore parse
          (buildContentsCore parse p0 (l1 ++ [tm])).2 l2).1 := by
  have hlook : ((buildContentsCore parse p0 l1).2).lookup n = some s := by
    rw [buildContentsCore_snd, List.lookup_append]
    unfold lastSigIn at hlast
    rw [hlast]
    rfl
  have hsig : pyOrS tm.thought_signature
      ((buildContentsCore parse p0 l1).2.lookup n) = some s := by
    rw [hnosig, hlook]
    rfl
  have htr : truthyS (some s) = true := by simp [truthyS, hs]
  have hmsg : processMsg parse ((buildContentsCore parse p0 l1).2) tm =
      ([⟨"function", [GPart.functionResponse n (toolRespData parse tm) (some s)]⟩],
       (buildContentsCore parse p0 l1).2) := by
    rw [processMsg_tool parse _ tm htool, hname, hsig]
    simp [htr]
  have hA := buildContentsCore_append parse l1 (tm :: l2) p0
  have hA2 := buildContentsCore_append parse l1 [tm] p0
  rw [hA, hA2]
  simp only [buildContentsCore_cons, hmsg, buildContentsCore]
  simp

/-- C1 witness: a signed call to `"f"` followed by a tool message that
identifies `"f"` only through `tool_call_id = "f_0"`. -/
theorem roundtrip_signature_propagation_witness :
    (buildContentsCore fxParseNone [] ([fxAssistantSigned] ++ fxToolMsg :: [])).1 =
      (buildContentsCore fxParseNone [] [fxAssistantSigned]).1 ++
        ⟨"function", [GPart.functionResponse "f" (toolRespData fxParseNone fxToolMsg)
          (some "sigA")]⟩ ::
        (buildContentsCore fxParseNone
          (buildContentsCore fxParseNone [] ([fxAssistantSigned] ++ [fxToolMsg])).2 []).1 :=
  roundtrip_signature_propagation fxParseNone [fxAssistantSigned] [] fxToolMsg []
    "f" "sigA" (by decide) (by decide) rfl (by decide) (by decide)

/-- C4 (counterexample): a system message with the two text segments
`"a"`, `"b"` yields the instruction `"a b"` (segments joined by a
space), not their concatenation `"ab"` as the claim states. -/
theorem system_concat_counterexample :
    getSystemInstruction [fxSystemTwo] = some [GPart.text "a b"] ∧
    "a b" ≠ "ab" := ⟨rfl, by decide⟩

/-- C4 (amended): the translated request carries exactly one
`systemInstruction`, taken from the first system-role message: its
string content when a string, and its dict items' `"text"` fields
joined by single spaces when a list; later system messages are ignored
and no system-role turn appears in `contents`. -/
theorem system_instruction_isolation
    (parse : String → Option Json) (l1 : List Msg) (m : Msg) (l2 : List Msg)
    (tools : List ToolDef) (arg : Option SigMap)
    (h1 : ∀ x ∈ l1, x.role ≠ some "system")
    (hm : m.role = some "system") :
    (buildRequestBody parse (l1 ++ m :: l2) tools arg).systemInstruction =
      some [GPart.text (sysText m)] ∧
    ∀ c ∈ (buildRequestBody parse (l1 ++ m :: l2) tools arg).contents,
      c.role ≠ "system" := by
  constructor
  · show getSystemInstruction (l1 ++ m :: l2) = _
    rw [getSystemInstruction_skip l1 h1]
    simp [getSystemInstruction, hm]
  · intro c hc
    have hc2 : c ∈ (buildContentsCore parse (resolvePendingArg arg)
        (l1 ++ m :: l2)).1 := hc
    rcases buildContentsCore_roles parse (l1 ++ m :: l2) (resolvePendingArg arg)
      c hc2 with h | h | h <;> rw [h] <;> decide

/-- C4 witness: one string-content system message followed by a second
system message; the instruction comes from the first alone. -/
theorem system_instruction_isolation_witness :
    (buildRequestBody fxParseNone ([] ++ fxSystemOne :: [fxSystemTwo]) [] none).systemInstruction =
      some [GPart.text (sysText fxSystemOne)] ∧
    ∀ c ∈ (buildRequestBody fxParseNone
        ([] ++ fxSystemOne :: [fxSystemTwo]) [] none).contents,
      c.role ≠ "system" :=
  system_instruction_isolation fxParseNone [] fxSystemOne [fxSystemTwo] [] none
    (by intro x hx; simp at hx) rfl

/-- C5: a non-200 status yields exactly one error event holding the
status code and the body truncated to 500 characters (for 400 with body
`"bad request"` the message contains `"400"` and `"bad request"`), with
no complete event; and every modelled run yields exactly one terminal
`complete` event or exactly one `error` event, never both or neither. -/
theorem error_on_non200 :
    (∀ (parse : String → Option Chunk) (dumps : Json → String)
       (status : Nat) (body : String) (lines : List String), status ≠ 200 →
       generateContentStream parse dumps (.response status body lines) =
         [.error ("API error " ++ Nat.repr status ++ ": " ++ pyTakeStr body 500)]) ∧
    (generateContentStream fxParseChunkNone fxDumpsEmpty
        (.response 400 "bad request" []) =
       [.error "API error 400: bad request"] ∧
     ("400".data <:+: ("API error 400: bad request" : String).data) ∧
     ("bad request".data <:+: ("API error 400: bad request" : String).data)) ∧
    (∀ (parse : String → Option Chunk) (dumps : Json → String) (t : Transport),
       ((generateContentStream parse dumps t).countP isComplete = 1 ∧
        (generateContentStream parse dumps t).countP isError = 0) ∨
       ((generateContentStream parse dumps t).countP isError = 1 ∧
        (generateContentStream parse dumps t).countP isComplete = 0)) := by
  refine ⟨?_, ⟨rfl, by decide, by decide⟩, ?_⟩
  · intro parse dumps status body lines h
    simp only [generateContentStream]
    rw [if_pos h]
  · intro parse dumps t
    match t with
    | .exception e => right; exact ⟨rfl, rfl⟩
    | .response status body lines =>
      by_cases h : status = 200
      · subst h
        left
        rw [stream200_eq]
        obtain ⟨-, -, h3, -⟩ := run_final parse dumps lines
        have hc : (processLines parse dumps initState lines).1.countP isComplete = 0 := by
          rw [List.countP_eq_zero]
          intro e he
          simp [(h3 e he).1]
        have herr : (processLines parse dumps initState lines).1.countP isError = 0 := by
          rw [List.countP_eq_zero]
          intro e he
          simp [(h3 e he).2]
        constructor
        · rw [List.countP_append, hc]
          rfl
        · rw [List.countP_append, herr]
          rfl
      · right
        simp only [generateContentStream]
        rw [if_pos h]
        exact ⟨rfl, rfl⟩

/-- C5 witness: a concrete non-200 status. -/
theorem error_on_non200_witness :
    generateContentStream fxParseChunkNone fxDumpsEmpty (.response 500 "oops" []) =
      [.error ("API error " ++ Nat.repr 500 ++ ": " ++ pyTakeStr "oops" 500)] :=
  error_on_non200.1 fxParseChunkNone fxDumpsEmpty 500 "oops" [] (by decide)

/-- C6: every accumulated tool-call descriptor has id
`"<name>_<ordinal>"` where the ordinal is its position in the
accumulated list, and the ids are pairwise distinct within one run,
whatever the chunk sequence and function names. -/
theorem tool_call_id_uniqueness
    (parse : String → Option Chunk) (dumps : Json → String) (lines : List String) :
    (∀ (k : Nat) (tck : ToolCallOut),
       (processLines parse dumps initState lines).2.toolCalls[k]? = some tck →
       tck.id = tck.function.name ++ "_" ++ Nat.repr k) ∧
    (∀ (i j : Nat) (tci tcj : ToolCallOut),
       (processLines parse dumps initState lines).2.toolCalls[i]? = some tci →
       (processLines parse dumps initState lines).2.toolCalls[j]? = some tcj →
       tci.id = tcj.id → i = j) := by
  obtain ⟨-, -, -, h4⟩ := run_final parse dumps lines
  have hk : ∀ (k : Nat) (tck : ToolCallOut),
      (processLines parse dumps initState lines).2.toolCalls[k]? = some tck →
      tck.id = tck.function.name ++ "_" ++ Nat.repr k := by
    intro k tck hget
    obtain ⟨hlt, hval⟩ := List.getElem?_eq_some_iff.mp hget
    rw [← hval]
    exact h4 k hlt
  refine ⟨hk, ?_⟩
  intro i j tci tcj hi hj heq
  rw [hk i tci hi, hk j tcj hj] at heq
  exact synth_id_injective heq

/-- C6 witness: two calls to the same function `"f"` in one run get the
distinct ids `"f_0"` and `"f_1"`. -/
theorem tool_call_id_uniqueness_witness :
    ¬ ((⟨"f_0", "function", ⟨"f", ""⟩, none⟩ : ToolCallOut).id =
       (⟨"f_1", "function", ⟨"f", ""⟩, none⟩ : ToolCallOut).id) :=
  fun h =>
    absurd
      ((tool_call_id_uniqueness fxParseTwoCalls fxDumpsEmpty ["data: T"]).2
        0 1 ⟨"f_0", "function", ⟨"f", ""⟩, none⟩ ⟨"f_1", "function", ⟨"f", ""⟩, none⟩
        rfl rfl h)
      (by decide)

/-- C7: the terminal complete event's finish_reason is exactly
`"tool_calls"` when the accumulated tool_calls list is non-empty and
exactly `"stop"` when it is empty, for every chunk sequence. -/
theorem finish_reason_correctness
    (parse : String → Option Chunk) (dumps : Json → String)
    (body : String) (lines : List String) (txt : String)
    (tcs : List ToolCallOut) (u : Option UsageOut) (fr : String)
    (h : Event.complete txt tcs u fr ∈
      generateContentStream parse dumps (.response 200 body lines)) :
    fr = (if tcs.isEmpty then "stop" else "tool_calls") ∧
    (fr = "tool_calls" ↔ tcs ≠ []) := by
  rw [stream200_eq] at h
  rcases List.mem_append.mp h with h | h
  · obtain ⟨-, -, h3, -⟩ := run_final parse dumps lines
    have := (h3 _ h).1
    simp [isComplete] at this
  · simp only [List.mem_singleton, Event.complete.injEq] at h
    obtain ⟨-, hc, -, hf⟩ := h
    subst hc
    refine ⟨hf, ?_⟩
    by_cases he : (processLines parse dumps initState lines).2.toolCalls.isEmpty
    · rw [if_pos he] at hf
      subst hf
      have hnil := List.isEmpty_iff.mp he
      rw [hnil]
      constructor
      · intro hcontr
        exact absurd hcontr (by decide)
      · intro hne
        exact absurd rfl hne
    · rw [if_neg he] at hf
      subst hf
      constructor
      · intro _
        intro hnil
        rw [hnil] at he
        exact he rfl
      · intro _
        rfl

/-- C7 witness: the text-only run ends with `finish_reason = "stop"` and
an empty tool_calls list. -/
theorem finish_reason_correctness_witness :
    "stop" = (if ([] : List ToolCallOut).isEmpty then "stop" else "tool_calls") ∧
    ("stop" = "tool_calls" ↔ ([] : List ToolCallOut) ≠ []) :=
  finish_reason_correctness fxParseHello fxDumpsEmpty "" ["data: notjson", "data: OK"]
    "hello" [] none "stop" (by decide)

/-- Text helper: a line starting with `"data: "` is neither empty nor a
comment line. -/
theorem dataLine_not_skipped {l : String} (h : pyStartsWith l "data: " = true) :
    ¬ (l = "" ∨ pyStartsWith l ":" = true) := by
  obtain ⟨t, ht⟩ := List.isPrefixOf_iff_prefix.mp h
  intro hc
  rcases hc with hc | hc
  · rw [hc] at ht
    simp at ht
  · obtain ⟨u, hu⟩ := List.isPrefixOf_iff_prefix.mp hc
    rw [← ht] at hu
    simp at hu

/-- C8: a blank line, a comment line starting with `":"`, or a
`"data: "` line with an undecodable payload is skipped with no event and
no state change; concretely, one non-JSON `data:` line followed by a
valid chunk with text `"hello"` yields exactly the `content "hello"`
event and a normal complete event. -/
theorem malformed_line_resilience :
    (∀ (parse : String → Option Chunk) (dumps : Json → String)
       (st : SState) (line : String),
       (pyStrip line = "" ∨ pyStartsWith (pyStrip line) ":" = true ∨
        (pyStartsWith (pyStrip line) "data: " = true ∧
         parse (pyDropStr (pyStrip line) 6) = none)) →
       processLine parse dumps st line = ([], st)) ∧
    generateContentStream fxParseHello fxDumpsEmpty
        (.response 200 "" ["data: notjson", "data: OK"]) =
      [.content "hello", .complete "hello" [] none "stop"] := by
  refine ⟨?_, rfl⟩
  intro parse dumps st line h
  unfold processLine
  rcases h with h | h | ⟨h1, h2⟩
  · rw [if_pos (Or.inl h)]
  · rw [if_pos (Or.inr h)]
  · rw [if_neg (dataLine_not_skipped h1), if_pos h1, h2]

/-- C8 witness: a comment line is skipped without any event. -/
theorem malformed_line_resilience_witness :
    processLine fxParseChunkNone fxDumpsEmpty initState ": keepalive" =
      ([], initState) :=
  malformed_line_resilience.1 fxParseChunkNone fxDumpsEmpty initState ": keepalive"
    (Or.inr (Or.inl (by decide)))

/-- C9: the streaming translator is a pure function of the chunk lines
(replay-deterministic by construction), and its terminal complete event
carries exactly the concatenation of all content event payloads and the
ordered list of all emitted tool-call descriptors. -/
theorem replay_accumulation
    (parse : String → Option Chunk) (dumps : Json → String)
    (body : String) (lines : List String) (txt : String)
    (tcs : List ToolCallOut) (u : Option UsageOut) (fr : String)
    (h : Event.complete txt tcs u fr ∈
      generateContentStream parse dumps (.response 200 body lines)) :
    txt = catTexts (generateContentStream parse dumps (.response 200 body lines)) ∧
    tcs = toolCallDescs (generateContentStream parse dumps (.response 200 body lines)) := by
  rw [stream200_eq] at h ⊢
  obtain ⟨h1, h2, h3, -⟩ := run_final parse dumps lines
  rcases List.mem_append.mp h with h | h
  · have := (h3 _ h).1
    simp [isComplete] at this
  · simp only [List.mem_singleton, Event.complete.injEq] at h
    obtain ⟨ht, hc, -, -⟩ := h
    constructor
    · rw [ht, h1, catTexts_append]
      simp [catTexts]
    · rw [hc, h2, toolCallDescs_append]
      simp [toolCallDescs]

/-- C9 witness: the accumulation equations at the concrete text run. -/
theorem replay_accumulation_witness :
    "hello" = catTexts (generateContentStream fxParseHello fxDumpsEmpty
        (.response 200 "" ["data: notjson", "data: OK"])) ∧
    ([] : List ToolCallOut) = toolCallDescs (generateContentStream fxParseHello fxDumpsEmpty
        (.response 200 "" ["data: notjson", "data: OK"])) :=
  replay_accumulation fxParseHello fxDumpsEmpty "" ["data: notjson", "data: OK"]
    "hello" [] none "stop" (by decide)

/-- C2 (counterexample): a chunk whose enclosing Content carries
`thought_signature "sigC"` while its functionCall Part carries none: the
emitted descriptor has no signature (the Content-level field is ignored),
and the terminal complete event consists of content, tool_calls, usage
and finish_reason only — there is no `message_signature` anywhere. -/
theorem message_signature_counterexample :
    generateContentStream fxParseEnclosing fxDumpsEmpty (.response 200 "" ["data: X"]) =
      [.toolCall ⟨"f_0", "function", ⟨"f", ""⟩, none⟩,
       .complete "" [⟨"f_0", "function", ⟨"f", ""⟩, none⟩] none "tool_calls"] ∧
    (⟨"f_0", "function", ⟨"f", ""⟩, none⟩ : ToolCallOut).thought_signature ≠
      some "sigC" :=
  ⟨rfl, by decide⟩

/-- C2 (amended): a truthy `thought_signature` carried by the
functionCall Part itself is attached to the emitted tool_call descriptor
and reaches the caller through the accumulated tool_calls of the
terminal complete event; there is no separate message-level signature
capture. -/
theorem signature_capture_on_tool_calls :
    (∀ (dumps : Json → String) (st : SState) (p : Part) (fc : FC),
       p.functionCall = some fc → truthyS fc.thought_signature = true →
       ∃ tc : ToolCallOut,
         Event.toolCall tc ∈ (processPart dumps st p).1 ∧
         tc.thought_signature = fc.thought_signature ∧
         tc ∈ (processPart dumps st p).2.toolCalls) ∧
    (∀ (parse : String → Option Chunk) (dumps : Json → String) (body : String)
       (lines : List String) (txt : String) (tcs : List ToolCallOut)
       (u : Option UsageOut) (fr : String),
       Event.complete txt tcs u fr ∈
         generateContentStream parse dumps (.response 200 body lines) →
       tcs = toolCallDescs (generateContentStream parse dumps
         (.response 200 body lines))) := by
  constructor
  · intro dumps st p fc hfc htr
    cases ht : p.text with
    | none =>
      refine ⟨⟨(fc.name.getD "") ++ "_" ++ Nat.repr st.toolCalls.length, "function",
        ⟨fc.name.getD "", dumps (fc.args.getD (Json.obj []))⟩, fc.thought_signature⟩,
        ?_, rfl, ?_⟩
      · unfold processPart
        rw [hfc, ht]
        simp [htr]
      · unfold processPart
        rw [hfc, ht]
        simp [htr]
    | some t =>
      refine ⟨⟨(fc.name.getD "") ++ "_" ++ Nat.repr st.toolCalls.length, "function",
        ⟨fc.name.getD "", dumps (fc.args.getD (Json.obj []))⟩, fc.thought_signature⟩,
        ?_, rfl, ?_⟩
      · unfold processPart
        rw [hfc, ht]
        simp [htr]
      · unfold processPart
        rw [hfc, ht]
        simp [htr]
  · intro parse dumps body lines txt tcs u fr h
    rw [stream200_eq] at h ⊢
    obtain ⟨-, h2, h3, -⟩ := run_final parse dumps lines
    rcases List.mem_append.mp h with h | h
    · have := (h3 _ h).1
      simp [isComplete] at this
    · simp only [List.mem_singleton, Event.complete.injEq] at h
      obtain ⟨-, hc, -, -⟩ := h
      rw [hc, h2, toolCallDescs_append]
      simp [toolCallDescs]

/-- C2 witness: a signed functionCall Part at the initial state. -/
theorem signature_capture_on_tool_calls_witness :
    ∃ tc : ToolCallOut,
      Event.toolCall tc ∈ (processPart fxDumpsEmpty initState fxPartSigned).1 ∧
      tc.thought_signature = (⟨some "g", none, some "sig1"⟩ : FC).thought_signature ∧
      tc ∈ (processPart fxDumpsEmpty initState fxPartSigned).2.toolCalls :=
  signature_capture_on_tool_calls.1 fxDumpsEmpty initState fxPartSigned
    ⟨some "g", none, some "sig1"⟩ rfl (by decide)

/-- C10 (counterexample): the caller passes an *empty* mapping; the
assistant message records a signed call to `"f"`, yet the caller's
mapping is left untouched — Python's `pending or {}` replaces any falsy
argument (an empty dict included, not only omitted/None) with a fresh
dict, so the mutation is invisible to the caller. -/
theorem empty_dict_not_aliased_counterexample :
    signedCalls fxAssistantSigned = [("f", "sigA")] ∧
    callerPendingAfter fxParseNone [fxAssistantSigned] (some []) = some [] ∧
    ((callerPendingAfter fxParseNone [fxAssistantSigned] (some [])).getD []).lookup "f"
      = none :=
  ⟨rfl, rfl, rfl⟩

/-- C10 (amended): when the supplied mapping is non-empty, the call
works on that mapping and every signed assistant tool call inserts or
overwrites the entry under its function name (a later signed call wins),
visibly to the caller; an omitted/None argument — and equally an *empty*
supplied mapping, since Python's `or {}` treats both as falsy — makes
the call work on a fresh mapping instead, and `generate_content_stream`
forwards its argument to `_build_contents` under the same rule. -/
theorem pending_map_mutation :
    (∀ (parse : String → Option Json) (msgs : List Msg) (m : SigMap), m ≠ [] →
       callerPendingAfter parse msgs (some m) =
         some ((msgs.flatMap signedCalls).reverse ++ m)) ∧
    (∀ (parse : String → Option Json) (msgs : List Msg) (m : SigMap), m ≠ [] →
       ∀ n : String,
         ((callerPendingAfter parse msgs (some m)).getD []).lookup n =
           (lastSigIn msgs n).or (m.lookup n)) ∧
    (∀ (parse : String → Option Json) (msgs : List Msg),
       callerPendingAfter parse msgs none = none) ∧
    (∀ (parse : String → Option Json) (msgs : List Msg),
       callerPendingAfter parse msgs (some []) = some []) ∧
    (∀ (parse : String → Option Json) (msgs : List Msg) (arg : Option SigMap),
       streamCallerPendingAfter parse msgs arg = callerPendingAfter parse msgs arg) := by
  refine ⟨?_, ?_, fun _ _ => rfl, fun _ _ => rfl, fun _ _ _ => rfl⟩
  · intro parse msgs m hm
    simp only [callerPendingAfter]
    rw [if_neg hm, buildContentsCore_snd]
  · intro parse msgs m hm n
    simp only [callerPendingAfter]
    rw [if_neg hm]
    simp only [Option.getD_some]
    rw [buildContentsCore_snd, List.lookup_append]
    rfl

/-- C10 witness: a seeded non-empty mapping receives the new entry for
`"f"`, visibly to the caller. -/
theorem pending_map_mutation_witness :
    ((callerPendingAfter fxParseNone [fxAssistantSigned]
        (some [("seed", "x")])).getD []).lookup "f" =
      (lastSigIn [fxAssistantSigned] "f").or (List.lookup "f" [("seed", "x")]) :=
  pending_map_mutation.2.1 fxParseNone [fxAssistantSigned] [("seed", "x")]
    (by decide) "f"

end Gemini
